import Mathlib

/-!
# Verification of the download subsystem

A shallow embedding of the download-queue manager of the repository:
the `DownloadItem` record, the persisted-queue loader, and the
`DownloadManager` operations (`add_download`, `pause_download`,
`resume_download`, `cancel_download`) together with the worker loop
(`run`) and the transfer engine (`download_file`).

File-system state is modelled as an association list from paths to file
sizes.  The HTTP response and the asynchronous pause/cancel flag writes
are modelled as an environment (`Env`): one observed flag value per
chunk-boundary check, one for the post-loop check.  Progress is modelled
as a rational number (the Python float values relevant to the claims,
0.0 and 100.0, are exact).
-/

namespace Addons

/-- The `DownloadItem` dataclass (src/unnamed/part_000, lines 170-183). -/
structure DownloadItem where
  id : String
  type : String
  title : String
  url : String
  output_path : String
  status : String := "pending"
  progress : Rat := 0
  file_size : Int := 0
  downloaded : Int := 0
  subtitle_url : String := ""
  pause_requested : Bool := false
  cancel_requested : Bool := false
deriving DecidableEq, Repr

/-- The `DownloadResult` enum (lines 186-189). -/
inductive DownloadResult where
  | COMPLETED
  | PAUSED
  | CANCELLED
deriving DecidableEq, Repr

/-- Qt signal emissions of `DownloadManager`: `progress_updated`,
`download_completed`, `download_error` (lines 517-519), as an event log. -/
inductive Event where
  | progress (item : DownloadItem)
  | completed (item : DownloadItem)
  | error (item : DownloadItem) (msg : String)
deriving DecidableEq, Repr

/-- The local file system: paths with the byte size of the file stored
there.  Only sizes matter to the embedded code (`os.path.getsize`,
append/truncate writes, `os.remove`). -/
abbrev FS := List (String × Nat)

/-- `os.path.getsize` combined with `os.path.exists`: the size of the
file at `p`, or `none` when no such file exists. -/
def lookupFS (fs : FS) (p : String) : Option Nat :=
  match fs with
  | [] => none
  | (q, n) :: rest => if q = p then some n else lookupFS rest p

/-- Writing a file of size `n` at `p` (create or overwrite). -/
def setFS (fs : FS) (p : String) (n : Nat) : FS :=
  match fs with
  | [] => [(p, n)]
  | (q, m) :: rest => if q = p then (q, n) :: rest else (q, m) :: setFS rest p n

/-- `os.remove p` (no-op when the file does not exist, matching the
`os.path.exists` guard in the source). -/
def removeFS (fs : FS) (p : String) : FS :=
  match fs with
  | [] => []
  | (q, m) :: rest => if q = p then removeFS rest p else (q, m) :: removeFS rest p

/-- Parse outcome of a present, non-empty `Content-Range` header:
whether the header value contains a slash, and the result of
`int(value.split(chr 47)[-1])` (`none` models a `ValueError`). -/
structure ContentRange where
  hasSlash : Bool
  total : Option Int
deriving DecidableEq, Repr

/-- One iteration of the chunk-streaming loop: the chunk's byte length
(`0` models an empty keep-alive chunk) and the values observed for
`item.cancel_requested` and `item.pause_requested` at this chunk
boundary, which an external caller thread may have set at any time. -/
structure Chunk where
  size : Nat
  cancel : Bool
  pause : Bool
deriving DecidableEq, Repr

/-- The environment of one `download_file` call: the HTTP response (its
status code, headers, and body chunks) together with the asynchronous
flag values observed at each polling point and the outcome of the
best-effort subtitle fetch. -/
structure Env where
  status_code : Nat
  content_range : Option ContentRange
  content_length : Option (Option Int)
  chunks : List Chunk
  cancel_after : Bool
  subtitle_ok : Bool
  subtitle_len : Nat
deriving DecidableEq, Repr

deriving instance DecidableEq for Except

/-- Result of one `download_file` call: the returned `DownloadResult`
(or a raised exception as `.error`), the mutated item, the resulting
file system, the sequence of values taken by `item.downloaded` (its
value on entry followed by the value after every assignment), the
progress events emitted, and the subtitle paths fetched. -/
structure DFOut where
  result : Except String DownloadResult
  item : DownloadItem
  fs : FS
  trace : List Int
  events : List Event
  subs : List String
deriving DecidableEq, Repr

/-- State of the chunk-streaming loop (lines 671-690). -/
structure LoopSt where
  item : DownloadItem
  fileSize : Nat
  cancelled : Bool
  paused : Bool
  trace : List Int
  events : List Event
deriving DecidableEq, Repr

/-- The body of one non-skipped loop iteration (lines 685-690): write
the chunk, flush, add its length to `downloaded`, recompute `progress`
when the total is known, and emit a progress event. -/
def writeChunk (total_size : Int) (c : Chunk) (st : LoopSt) : LoopSt :=
  let d := st.item.downloaded + (c.size : Int)
  let it2 := { st.item with downloaded := d }
  let it3 := if 0 < total_size
    then { it2 with progress := (d : Rat) / (total_size : Rat) * 100 }
    else it2
  { st with item := it3,
            fileSize := st.fileSize + c.size,
            trace := st.trace ++ [d],
            events := st.events ++ [.progress it3] }

/-- The `for chunk in response.iter_content(...)` loop (lines 672-690):
at each chunk boundary first poll `cancel_requested` (clearing it when
observed), then `pause_requested`, skip empty chunks, else write the
chunk via `writeChunk`. -/
def streamLoop (total_size : Int) : List Chunk → LoopSt → LoopSt
  | [], st => st
  | c :: cs, st =>
    if c.cancel then
      { st with cancelled := true,
                item := { st.item with cancel_requested := false } }
    else if c.pause then
      { st with paused := true }
    else if c.size = 0 then
      streamLoop total_size cs st
    else
      streamLoop total_size cs (writeChunk total_size c st)

/-- One pass of Python `str.replace`: replace the leftmost
non-overlapping occurrences of `pat`, scanning left to right.  `fuel`
bounds the recursion by the input length. -/
def replaceList (pat rep : List Char) : Nat → List Char → List Char
  | _, [] => []
  | 0, l => l
  | fuel + 1, c :: cs =>
    if pat ≠ [] ∧ (c :: cs).take pat.length = pat then
      rep ++ replaceList pat rep fuel ((c :: cs).drop pat.length)
    else
      c :: replaceList pat rep fuel cs

/-- Python `str.replace(pat, rep)` (all non-overlapping occurrences,
left to right).  Lean core's `String.replace` has the same semantics on
the patterns used here but is defined by well-founded recursion and
does not reduce in the kernel, so the embedding uses this explicit
recursion. -/
def sreplace (s pat rep : String) : String :=
  ⟨replaceList pat.data rep.data s.data.length s.data⟩

/-- Total-size accounting (lines 623-642): a `Content-Range` value with
a slash is authoritative (`0` on a parse error); otherwise
`Content-Length`, added to `start_from` when resuming.  Returns
`(total_size, length_value)`. -/
def parseTotals (start_from : Nat) (e : Env) : Int × Option Int :=
  let lenParse : Int × Option Int :=
    match e.content_length with
    | some (some n) =>
        (if start_from ≠ 0 then (start_from : Int) + n else n, some n)
    | some none => (0, none)
    | none => (0, none)
  match e.content_range with
  | some cr => if cr.hasSlash then (cr.total.getD 0, none) else lenParse
  | none => lenParse

/-- The state handed from the pre-loop part of `download_file` to the
streaming part: the item after the size bookkeeping, the file system,
the effective resume offset, the effective total, and the `downloaded`
trace so far. -/
structure PreSt where
  item : DownloadItem
  fs : FS
  start1 : Nat
  total : Int
  trace : List Int
deriving DecidableEq, Repr

/-- Lines 623-667 of `download_file`: store the learned total in
`file_size`, recompute `progress` for a resumed transfer, and apply the
range-not-honored fallback (delete the partial file, reset the offset
and counters to zero, take `Content-Length` as the new total). -/
def preludeStage (item1 : DownloadItem) (fs : FS) (start_from : Nat)
    (trace0 : List Int) (e : Env) : PreSt :=
  let pt := parseTotals start_from e
  let total_size0 := pt.1
  let length_value := pt.2
  let item2 := if total_size0 ≠ 0
    then { item1 with file_size := total_size0 } else item1
  let total_size1 := item2.file_size
  let item3 := if total_size1 ≠ 0 ∧ item2.downloaded ≠ 0
    then { item2 with
            progress := (item2.downloaded : Rat) / (total_size1 : Rat) * 100 }
    else item2
  let nonRange : Bool := decide (start_from ≠ 0) && decide (e.status_code ≠ 206)
  if nonRange then
    let it := { item3 with downloaded := 0, progress := 0 }
    let item4 := match length_value with
      | some n => { it with file_size := n }
      | none => it
    ⟨item4, removeFS fs item1.output_path, 0, item4.file_size,
      trace0 ++ [(0 : Int)]⟩
  else
    ⟨item3, fs, start_from, total_size1, trace0⟩

/-- Lines 669-714 of `download_file`: open the destination in append or
truncate mode, stream the chunks, re-check `cancel_requested` after the
loop, perform cancellation cleanup (delete the file, zero the
counters), return `PAUSED` after a pause break, else fetch subtitles
best-effort and return `COMPLETED`. -/
def mainStage (item0 : DownloadItem) (e : Env) (p : PreSt) : DFOut :=
  let fs2 := setFS p.fs item0.output_path p.start1
  let st := streamLoop p.total e.chunks ⟨p.item, p.start1, false, false, p.trace, []⟩
  let fs3 := setFS fs2 item0.output_path st.fileSize
  let cancelled1 := st.cancelled || e.cancel_after
  if cancelled1 then
    let it5 := { st.item with progress := 0, downloaded := 0, file_size := 0,
                              cancel_requested := false }
    ⟨.ok .CANCELLED, it5, removeFS fs3 item0.output_path,
      st.trace ++ [(0 : Int)], st.events, []⟩
  else if st.paused then
    ⟨.ok .PAUSED, { st.item with pause_requested := false }, fs3,
      st.trace, st.events, []⟩
  else if item0.subtitle_url ≠ "" then
    let sub_path := sreplace (sreplace item0.output_path ".mp4" ".srt") ".mkv" ".srt"
    let fs4 := if e.subtitle_ok then setFS fs3 sub_path e.subtitle_len else fs3
    ⟨.ok .COMPLETED, st.item, fs4, st.trace, st.events, [sub_path]⟩
  else
    ⟨.ok .COMPLETED, st.item, fs3, st.trace, st.events, []⟩

/-- `DownloadManager.download_file` (lines 603-714): resume detection
from the local file size, range request, `raise_for_status`, then the
pre-loop size bookkeeping (`preludeStage`) and the streaming loop with
its outcome handling (`mainStage`). -/
def download_file (item0 : DownloadItem) (fs : FS) (e : Env) : DFOut :=
  let start_from : Nat := (lookupFS fs item0.output_path).getD 0
  let item1 := if start_from ≠ 0
    then { item0 with downloaded := (start_from : Int) }
    else { item0 with downloaded := 0, progress := 0 }
  let trace0 : List Int := [item0.downloaded, item1.downloaded]
  if 400 ≤ e.status_code then
    -- `response.raise_for_status()` raises; the partial file is kept.
    ⟨.error "HTTPError", item1, fs, trace0, [], []⟩
  else
    mainStage item0 e (preludeStage item1 fs start_from trace0 e)

/-- State of the `DownloadManager` (lines 516-601): the in-memory
queue, `current_download`, whether the QThread worker is running, the
records that left the worker with a terminal status (still referenced by
observers), the last persisted queue document, the file system, and the
emitted events. -/
structure MState where
  queue : List DownloadItem
  current : Option DownloadItem
  running : Bool
  finished : List DownloadItem
  persisted : List DownloadItem
  fs : FS
  events : List Event
deriving DecidableEq, Repr

/-- `DownloadManager.add_download` (lines 526-533): force
`status = "pending"`, clear both control flags, append to the tail,
persist, and start the worker when it is not running. -/
def add_download (item : DownloadItem) (s : MState) : MState :=
  let it := { item with status := "pending", pause_requested := false,
                        cancel_requested := false }
  let q := s.queue ++ [it]
  { s with queue := q, persisted := q, running := true }

/-- `DownloadManager.pause_download` (lines 535-537): set the active
record's `pause_requested` flag, if any record is active. -/
def pause_download (s : MState) : MState :=
  match s.current with
  | some c => { s with current := some { c with pause_requested := true } }
  | none => s

/-- `DownloadManager.resume_download` (lines 539-541): restart the
worker when it is idle and the queue is non-empty. -/
def resume_download (s : MState) : MState :=
  if ¬ s.running ∧ s.queue ≠ [] then { s with running := true } else s

/-- `DownloadManager.cancel_download` (lines 543-560): when the active
record matches, only set its `cancel_requested` flag; otherwise remove
every queued record with that id (deleting its partial output file when
present), keep all the others in order, and persist the new queue. -/
def cancel_download (item_id : String) (s : MState) : MState :=
  let isActive : Bool := match s.current with
    | some c => c.id = item_id
    | none => false
  if isActive then
    match s.current with
    | some c => { s with current := some { c with cancel_requested := true } }
    | none => s
  else
    let fs1 := s.queue.foldl
      (fun fs it => if it.id = item_id then removeFS fs it.output_path else fs)
      s.fs
    let q := s.queue.filter (fun it => it.id ≠ item_id)
    { s with queue := q, fs := fs1, persisted := q }

/-- The outcome handling of one worker-loop iteration (lines 571-601),
given the engine result `out` for the item that was popped; `s.queue` is
the manager's queue at outcome time.  Returns the new state and whether
`run` returned (stopping the loop). -/
def finishCurrent (s : MState) (out : DFOut) : MState × Bool :=
  match out.result with
  | .error msg =>
    let it2 := { out.item with status := "error" }
    ({ s with current := none, fs := out.fs,
              events := s.events ++ out.events ++ [.error it2 msg],
              persisted := s.queue }, false)
  | .ok .COMPLETED =>
    let it := out.item
    let it2 := if it.file_size ≠ 0 ∧ it.downloaded < it.file_size
      then { it with downloaded := it.file_size } else it
    let it3 := { it2 with progress := 100, status := "completed" }
    ({ s with current := none, fs := out.fs,
              finished := s.finished ++ [it3],
              events := s.events ++ out.events ++ [.completed it3],
              persisted := s.queue }, false)
  | .ok .PAUSED =>
    let it3 := { out.item with status := "paused" }
    ({ s with queue := it3 :: s.queue, current := none, running := false,
              fs := out.fs,
              events := s.events ++ out.events ++ [.progress it3],
              persisted := it3 :: s.queue }, true)
  | .ok .CANCELLED =>
    let it3 := { out.item with status := "cancelled", progress := 0,
                               downloaded := 0, file_size := 0 }
    ({ s with current := none, fs := out.fs,
              finished := s.finished ++ [it3],
              events := s.events ++ out.events ++ [.progress it3],
              persisted := s.queue }, false)

/-- One full iteration of `DownloadManager.run`'s while loop (lines
562-601), with the engine's environment `e`: pop the head, mark it
`"downloading"` with cleared flags, emit a progress event, run
`download_file`, and handle its outcome.  When the queue is empty the
worker exits instead. -/
def runIter (s : MState) (e : Env) : MState × Bool :=
  match s.queue with
  | [] => ({ s with running := false }, true)
  | item :: rest =>
    let item1 := { item with status := "downloading", pause_requested := false,
                             cancel_requested := false }
    let s1 := { s with queue := rest, current := some item1,
                       events := s.events ++ [.progress item1] }
    finishCurrent s1 (download_file item1 s.fs e)

/-- `DownloadManager.run` (lines 562-601): iterate the worker loop, one
environment per processed record, until the queue empties, the loop
returns (pause), or the supplied environments run out (a truncated
observation of a still-running worker). -/
def runLoop (s : MState) : List Env → MState
  | [] => s
  | e :: es =>
    match s.queue with
    | [] => { s with running := false }
    | _ :: _ =>
      let r := runIter s e
      if r.2 then r.1 else runLoop r.1 es

/-- An observable step of the whole manager: a caller operation
(`add_download`, `pause_download`, `resume_download`, `cancel_download`)
or a worker micro-step (popping the head, finishing the current transfer
with some environment, exiting when the queue is empty).  Caller actions
may interleave between the worker's pop and finish. -/
inductive Action where
  | add (item : DownloadItem)
  | pause
  | resume
  | cancel (id : String)
  | pop
  | finish (e : Env)
  | exitWorker
deriving Repr

/-- The transition function for one `Action`.  Guards reflect the
source: the worker pops only while running with no current item and a
non-empty queue, finishes only with a current item, and exits only when
the queue is empty. -/
def step (s : MState) : Action → MState
  | .add item => add_download item s
  | .pause => pause_download s
  | .resume => resume_download s
  | .cancel id => cancel_download id s
  | .pop =>
    match s.current, s.queue with
    | none, item :: rest =>
      if s.running then
        let item1 := { item with status := "downloading",
                                 pause_requested := false,
                                 cancel_requested := false }
        { s with queue := rest, current := some item1,
                 events := s.events ++ [.progress item1] }
      else s
    | _, _ => s
  | .finish e =>
    match s.current with
    | some c =>
      if s.running then (finishCurrent s (download_file c s.fs e)).1 else s
    | none => s
  | .exitWorker =>
    match s.current, s.queue with
    | none, [] => if s.running then { s with running := false } else s
    | _, _ => s

/-- Run a sequence of actions from a state. -/
def steps (s : MState) : List Action → MState
  | [] => s
  | a :: as => steps (step s a) as

/-- Number of records with `status = "downloading"` among all records
the manager ever handed out: the queue, the current item, and the
records that reached a terminal status. -/
def activeCount (s : MState) : Nat :=
  (s.queue.filter (fun r => r.status = "downloading")).length +
  (s.finished.filter (fun r => r.status = "downloading")).length +
  (match s.current with
   | some c => if c.status = "downloading" then 1 else 0
   | none => 0)

/-- A manager state starting from a freshly loaded queue `q`:
no current download, worker not yet started. -/
def initState (q : List DownloadItem) (fs : FS) : MState :=
  ⟨q, none, false, [], q, fs, []⟩

/-! ## Queue persistence (`load_json` / `load_download_queue`) -/

/-- JSON values, as produced by `json.load`. -/
inductive Json where
  | null
  | bool (b : Bool)
  | num (n : Int)
  | str (s : String)
  | arr (xs : List Json)
  | obj (kvs : List (String × Json))

/-- Lookup in a JSON object (`dict.get`). -/
def jlookup (kvs : List (String × Json)) (k : String) : Option Json :=
  match kvs with
  | [] => none
  | (q, v) :: rest => if q = k then some v else jlookup rest k

/-- `load_json` (lines 221-227): the parameter is the result of opening
and parsing the document — `none` when the file is missing or its
content is not valid JSON (any exception is caught and the default
returned). -/
def load_json (doc : Option Json) (default : Json) : Json :=
  doc.getD default

/-- The field names of the `DownloadItem` dataclass. -/
def itemKeys : List String :=
  ["id", "type", "title", "url", "output_path", "status", "progress",
   "file_size", "downloaded", "subtitle_url", "pause_requested",
   "cancel_requested"]

def jAsStr : Json → Except String String
  | .str s => .ok s
  | _ => .error "TypeError"

def jAsInt : Json → Except String Int
  | .num n => .ok n
  | _ => .error "TypeError"

def jAsRat : Json → Except String Rat
  | .num n => .ok (n : Rat)
  | _ => .error "TypeError"

def jAsBool : Json → Except String Bool
  | .bool b => .ok b
  | _ => .error "TypeError"

/-- `DownloadItem(**item)`: raises `TypeError` when `item` is not a
mapping, when a required field (`id`, `type`, `title`, `url`,
`output_path`) is missing, or when an unexpected key is present;
optional fields take the dataclass defaults.  (CPython checks argument
names, not value types; field values in documents written by
`save_download_queue` always have the shapes decoded here.) -/
def itemFromJson : Json → Except String DownloadItem
  | .obj kvs =>
    if kvs.all (fun kv => itemKeys.contains kv.1) then
      match jlookup kvs "id", jlookup kvs "type", jlookup kvs "title",
            jlookup kvs "url", jlookup kvs "output_path" with
      | some ji, some jt, some jti, some ju, some jo => do
        let i ← jAsStr ji
        let t ← jAsStr jt
        let ti ← jAsStr jti
        let u ← jAsStr ju
        let o ← jAsStr jo
        let st ← (jlookup kvs "status").elim (.ok "pending") jAsStr
        let pr ← (jlookup kvs "progress").elim (.ok 0) jAsRat
        let fsz ← (jlookup kvs "file_size").elim (.ok 0) jAsInt
        let dl ← (jlookup kvs "downloaded").elim (.ok 0) jAsInt
        let su ← (jlookup kvs "subtitle_url").elim (.ok "") jAsStr
        let pq ← (jlookup kvs "pause_requested").elim (.ok false) jAsBool
        let cq ← (jlookup kvs "cancel_requested").elim (.ok false) jAsBool
        .ok ⟨i, t, ti, u, o, st, pr, fsz, dl, su, pq, cq⟩
      | _, _, _, _, _ => .error "TypeError: missing required argument"
    else .error "TypeError: unexpected keyword argument"
  | _ => .error "TypeError: argument is not a mapping"

/-- `load_download_queue` (lines 280-282): take the parsed document (or
the `\x7b"items": []\x7d` default on a read/parse failure), fetch
`"items"` with an empty-list default, and build a `DownloadItem` from
each entry; any exception raised past `load_json` propagates to the
caller. -/
def load_download_queue (doc : Option Json) : Except String (List DownloadItem) :=
  match load_json doc (Json.obj [("items", Json.arr [])]) with
  | .obj kvs =>
    match (jlookup kvs "items").getD (Json.arr []) with
    | .arr xs => xs.mapM itemFromJson
    | _ => .error "TypeError: not iterable"
  | _ => .error "AttributeError"

/-! ## Helper lemmas -/

theorem lookupFS_setFS_same (fs : FS) (p : String) (n : Nat) :
    lookupFS (setFS fs p n) p = some n := by
  induction fs with
  | nil => simp [setFS, lookupFS]
  | cons hd tl ih =>
    obtain ⟨q, m⟩ := hd
    by_cases h : q = p
    · simp [setFS, lookupFS, h]
    · simp [setFS, lookupFS, h, ih]

theorem lookupFS_removeFS_same (fs : FS) (p : String) :
    lookupFS (removeFS fs p) p = none := by
  induction fs with
  | nil => simp [removeFS, lookupFS]
  | cons hd tl ih =>
    obtain ⟨q, m⟩ := hd
    by_cases h : q = p
    · simp [removeFS, h, ih]
    · simp [removeFS, lookupFS, h, ih]

theorem writeChunk_trace (total : Int) (c : Chunk) (st : LoopSt) :
    (writeChunk total c st).trace
      = st.trace ++ [st.item.downloaded + (c.size : Int)] := by
  unfold writeChunk
  split <;> rfl

theorem writeChunk_downloaded (total : Int) (c : Chunk) (st : LoopSt) :
    (writeChunk total c st).item.downloaded
      = st.item.downloaded + (c.size : Int) := by
  unfold writeChunk
  split <;> rfl

theorem writeChunk_fileSize (total : Int) (c : Chunk) (st : LoopSt) :
    (writeChunk total c st).fileSize = st.fileSize + c.size := by
  unfold writeChunk
  split <;> rfl

theorem writeChunk_flags (total : Int) (c : Chunk) (st : LoopSt) :
    (writeChunk total c st).cancelled = st.cancelled ∧
    (writeChunk total c st).paused = st.paused := by
  unfold writeChunk
  split <;> exact ⟨rfl, rfl⟩

theorem writeChunk_item_misc (total : Int) (c : Chunk) (st : LoopSt) :
    (writeChunk total c st).item.status = st.item.status ∧
    (writeChunk total c st).item.file_size = st.item.file_size ∧
    (writeChunk total c st).item.pause_requested = st.item.pause_requested ∧
    (writeChunk total c st).item.cancel_requested = st.item.cancel_requested := by
  unfold writeChunk
  split <;> exact ⟨rfl, rfl, rfl, rfl⟩

theorem streamLoop_no_flags (total : Int) (cs : List Chunk) (st : LoopSt)
    (h : ∀ c ∈ cs, c.cancel = false ∧ c.pause = false) :
    (streamLoop total cs st).cancelled = st.cancelled ∧
    (streamLoop total cs st).paused = st.paused ∧
    (streamLoop total cs st).fileSize = st.fileSize + (cs.map Chunk.size).sum ∧
    (streamLoop total cs st).item.downloaded
      = st.item.downloaded + ((cs.map Chunk.size).sum : Int) ∧
    (streamLoop total cs st).item.status = st.item.status ∧
    (streamLoop total cs st).item.pause_requested = st.item.pause_requested ∧
    (streamLoop total cs st).item.cancel_requested = st.item.cancel_requested := by
  induction cs generalizing st with
  | nil => simp [streamLoop]
  | cons c cs ih =>
    obtain ⟨hc, hp⟩ := h c (by simp)
    have hrest : ∀ x ∈ cs, x.cancel = false ∧ x.pause = false :=
      fun x hx => h x (by simp [hx])
    by_cases hz : c.size = 0
    · simp only [streamLoop, hc, hp, hz, Bool.false_eq_true, if_false, if_true]
      simpa [hz] using ih st hrest
    · simp only [streamLoop, hc, hp, hz, Bool.false_eq_true, if_false]
      have hmain := ih (writeChunk total c st) hrest
      obtain ⟨e1, e2, e3, e4, e5, e6, e7⟩ := hmain
      obtain ⟨f1, f2⟩ := writeChunk_flags total c st
      obtain ⟨g1, g2, g3, g4⟩ := writeChunk_item_misc total c st
      refine ⟨by rw [e1, f1], by rw [e2, f2], ?_, ?_,
              by rw [e5, g1], by rw [e6, g3], by rw [e7, g4]⟩
      · rw [e3, writeChunk_fileSize]
        simp
        omega
      · rw [e4, writeChunk_downloaded]
        push_cast [List.map_cons, List.sum_cons]
        ring

theorem streamLoop_trace_extends (total : Int) (cs : List Chunk) (st : LoopSt) :
    ∃ tl, (streamLoop total cs st).trace = st.trace ++ tl := by
  induction cs generalizing st with
  | nil => exact ⟨[], by simp [streamLoop]⟩
  | cons c cs ih =>
    by_cases hc : c.cancel = true
    · exact ⟨[], by simp [streamLoop, hc]⟩
    · by_cases hp : c.pause = true
      · exact ⟨[], by simp [streamLoop, hc, hp]⟩
      · by_cases hz : c.size = 0
        · simpa [streamLoop, hc, hp, hz] using ih st
        · simp only [streamLoop, hc, hp, hz, Bool.false_eq_true, if_false]
          obtain ⟨tl, htl⟩ := ih (writeChunk total c st)
          rw [writeChunk_trace] at htl
          exact ⟨[st.item.downloaded + (c.size : Int)] ++ tl, by rw [htl]; simp⟩

theorem streamLoop_trace_chain (P : Int → Int → Prop)
    (hP : ∀ (a : Int) (k : Nat), P a (a + (k : Int)))
    (total : Int) (cs : List Chunk) (st : LoopSt)
    (h1 : List.Chain' P st.trace)
    (h2 : st.trace.getLast? = some st.item.downloaded) :
    List.Chain' P (streamLoop total cs st).trace ∧
    (streamLoop total cs st).trace.getLast?
      = some (streamLoop total cs st).item.downloaded := by
  induction cs generalizing st with
  | nil => exact ⟨by simpa [streamLoop] using h1, by simpa [streamLoop] using h2⟩
  | cons c cs ih =>
    by_cases hc : c.cancel = true
    · exact ⟨by simpa [streamLoop, hc] using h1, by simpa [streamLoop, hc] using h2⟩
    · by_cases hp : c.pause = true
      · exact ⟨by simpa [streamLoop, hc, hp] using h1,
               by simpa [streamLoop, hc, hp] using h2⟩
      · by_cases hz : c.size = 0
        · simp only [streamLoop, hc, hp, hz, Bool.false_eq_true, if_false, if_true]
          exact ih st h1 h2
        · simp only [streamLoop, hc, hp, hz, Bool.false_eq_true, if_false]
          apply ih
          · rw [writeChunk_trace, List.chain'_append]
            refine ⟨h1, by simp, ?_⟩
            intro x hx y hy
            rw [h2] at hx
            simp at hx hy
            rw [← hx, ← hy]
            exact hP st.item.downloaded c.size
          · rw [writeChunk_trace, writeChunk_downloaded]
            simp

theorem finishCurrent_paused (s : MState) (it : DownloadItem) (f : FS)
    (tr : List Int) (ev : List Event) (sb : List String) :
    finishCurrent s ⟨.ok .PAUSED, it, f, tr, ev, sb⟩ =
      ({ s with queue := { it with status := "paused" } :: s.queue,
                current := none, running := false, fs := f,
                events := s.events ++ ev
                  ++ [.progress { it with status := "paused" }],
                persisted := { it with status := "paused" } :: s.queue },
       true) := rfl

theorem finishCurrent_completed (s : MState) (it : DownloadItem) (f : FS)
    (tr : List Int) (ev : List Event) (sb : List String) :
    finishCurrent s ⟨.ok .COMPLETED, it, f, tr, ev, sb⟩ =
      (let it2 := if it.file_size ≠ 0 ∧ it.downloaded < it.file_size
         then { it with downloaded := it.file_size } else it
       let it3 := { it2 with progress := 100, status := "completed" }
       ({ s with current := none, fs := f,
                 finished := s.finished ++ [it3],
                 events := s.events ++ ev ++ [.completed it3],
                 persisted := s.queue }, false)) := rfl

theorem preludeStage_proj (item1 : DownloadItem) (fs : FS) (start_from : Nat)
    (trace0 : List Int) (e : Env) :
    (preludeStage item1 fs start_from trace0 e).item.output_path = item1.output_path ∧
    (preludeStage item1 fs start_from trace0 e).item.subtitle_url = item1.subtitle_url ∧
    (preludeStage item1 fs start_from trace0 e).item.status = item1.status := by
  simp only [preludeStage]
  split
  · split <;> split <;> split <;> simp_all
  · split <;> split <;> simp_all

theorem preludeStage_nonRange (item1 : DownloadItem) (fs : FS) (start_from : Nat)
    (trace0 : List Int) (e : Env)
    (h1 : start_from ≠ 0) (h2 : e.status_code ≠ 206) :
    (preludeStage item1 fs start_from trace0 e).start1 = 0 ∧
    (preludeStage item1 fs start_from trace0 e).fs = removeFS fs item1.output_path ∧
    (preludeStage item1 fs start_from trace0 e).item.downloaded = 0 ∧
    (preludeStage item1 fs start_from trace0 e).trace = trace0 ++ [(0 : Int)] := by
  simp only [preludeStage]
  have hnr : (decide (start_from ≠ 0) && decide (e.status_code ≠ 206)) = true := by
    simp [h1, h2]
  simp only [hnr, if_true]
  split <;> split <;> split <;> simp_all

theorem preludeStage_range (item1 : DownloadItem) (fs : FS) (start_from : Nat)
    (trace0 : List Int) (e : Env)
    (h : start_from = 0 ∨ e.status_code = 206) :
    (preludeStage item1 fs start_from trace0 e).start1 = start_from ∧
    (preludeStage item1 fs start_from trace0 e).fs = fs ∧
    (preludeStage item1 fs start_from trace0 e).item.downloaded = item1.downloaded ∧
    (preludeStage item1 fs start_from trace0 e).trace = trace0 := by
  simp only [preludeStage]
  have hnr : (decide (start_from ≠ 0) && decide (e.status_code ≠ 206)) = false := by
    rcases h with h | h <;> simp [h]
  simp only [hnr, Bool.false_eq_true, if_false]
  split <;> split <;> simp_all

theorem preludeStage_last (item1 : DownloadItem) (fs : FS) (start_from : Nat)
    (trace0 : List Int) (e : Env)
    (h : trace0.getLast? = some item1.downloaded) :
    (preludeStage item1 fs start_from trace0 e).trace.getLast?
      = some (preludeStage item1 fs start_from trace0 e).item.downloaded := by
  simp only [preludeStage]
  split
  · split <;> split <;> split <;> simp_all
  · split <;> split <;> simp_all

theorem mainStage_cancelled (item0 : DownloadItem) (e : Env) (p : PreSt)
    (hafter : e.cancel_after = true) :
    (mainStage item0 e p).result = .ok .CANCELLED ∧
    lookupFS (mainStage item0 e p).fs item0.output_path = none ∧
    (mainStage item0 e p).item.downloaded = 0 ∧
    (mainStage item0 e p).item.file_size = 0 ∧
    (mainStage item0 e p).item.progress = 0 := by
  unfold mainStage
  simp only [hafter, Bool.or_true, if_true]
  simp [lookupFS_removeFS_same]

theorem mainStage_completed (item0 : DownloadItem) (e : Env) (p : PreSt)
    (hflags : ∀ c ∈ e.chunks, c.cancel = false ∧ c.pause = false)
    (hafter : e.cancel_after = false) :
    (mainStage item0 e p).result = .ok .COMPLETED ∧
    (mainStage item0 e p).item
      = (streamLoop p.total e.chunks ⟨p.item, p.start1, false, false, p.trace, []⟩).item ∧
    (mainStage item0 e p).item.downloaded
      = p.item.downloaded + ((e.chunks.map Chunk.size).sum : Int) ∧
    (mainStage item0 e p).trace
      = (streamLoop p.total e.chunks ⟨p.item, p.start1, false, false, p.trace, []⟩).trace ∧
    (mainStage item0 e p).subs
      = (if item0.subtitle_url ≠ ""
         then [sreplace (sreplace item0.output_path ".mp4" ".srt") ".mkv" ".srt"]
         else []) ∧
    (mainStage item0 e p).fs
      = (let fs3 := setFS (setFS p.fs item0.output_path p.start1) item0.output_path
                      (p.start1 + (e.chunks.map Chunk.size).sum)
         if item0.subtitle_url ≠ ""
         then (if e.subtitle_ok
               then setFS fs3 (sreplace (sreplace item0.output_path ".mp4" ".srt") ".mkv" ".srt")
                      e.subtitle_len
               else fs3)
         else fs3) := by
  have hl := streamLoop_no_flags p.total e.chunks
    ⟨p.item, p.start1, false, false, p.trace, []⟩ hflags
  simp only at hl
  obtain ⟨hcan, hpau, hfsz, hdl, -⟩ := hl
  unfold mainStage
  simp only [hcan, hpau, hafter, Bool.or_false, Bool.false_or, if_false,
    Bool.false_eq_true, hfsz, hdl]
  by_cases hs : item0.subtitle_url = ""
  · simp [hs, hdl]
  · by_cases hok : e.subtitle_ok = true
    · simp [hs, hok, hdl]
    · simp [hs, hok, hdl]

/-- The single-flight invariant: no record in the queue or among the
terminal records carries the active (`"downloading"`) status; only the
current download may. -/
def Inv (s : MState) : Prop :=
  (∀ r ∈ s.queue, r.status ≠ "downloading") ∧
  (∀ r ∈ s.finished, r.status ≠ "downloading")

theorem inv_finishCurrent (s : MState) (out : DFOut) (h : Inv s) :
    Inv (finishCurrent s out).1 := by
  obtain ⟨h1, h2⟩ := h
  rcases out with ⟨res, it, f, tr, ev, sb⟩
  rcases res with msg | r
  · exact ⟨h1, h2⟩
  · rcases r with _ | _ | _
    · refine ⟨h1, fun r hr => ?_⟩
      rcases List.mem_append.mp hr with hr | hr
      · exact h2 r hr
      · rcases List.mem_singleton.mp hr with rfl
        show ("completed" : String) ≠ "downloading"
        decide
    · refine ⟨fun r hr => ?_, h2⟩
      rcases List.mem_cons.mp hr with rfl | hr
      · show ("paused" : String) ≠ "downloading"
        decide
      · exact h1 r hr
    · refine ⟨h1, fun r hr => ?_⟩
      rcases List.mem_append.mp hr with hr | hr
      · exact h2 r hr
      · rcases List.mem_singleton.mp hr with rfl
        show ("cancelled" : String) ≠ "downloading"
        decide

theorem inv_step (s : MState) (a : Action) (h : Inv s) : Inv (step s a) := by
  obtain ⟨qu, cur, run, fin, per, f, ev⟩ := s
  obtain ⟨h1, h2⟩ := h
  cases a with
  | add item =>
    refine ⟨fun r hr => ?_, h2⟩
    rcases List.mem_append.mp hr with hr | hr
    · exact h1 r hr
    · rcases List.mem_singleton.mp hr with rfl
      show ("pending" : String) ≠ "downloading"
      decide
  | pause =>
    cases cur <;> exact ⟨h1, h2⟩
  | resume =>
    simp only [step, resume_download]
    split <;> exact ⟨h1, h2⟩
  | cancel id =>
    simp only [step, cancel_download]
    split
    · cases cur <;> exact ⟨h1, h2⟩
    · refine ⟨fun r hr => ?_, h2⟩
      exact h1 r (List.mem_of_mem_filter hr)
  | pop =>
    cases cur with
    | some c => exact ⟨h1, h2⟩
    | none =>
      cases qu with
      | nil => exact ⟨h1, h2⟩
      | cons item rest =>
        cases run
        · exact ⟨h1, h2⟩
        · exact ⟨fun r hr => h1 r (List.mem_cons_of_mem item hr), h2⟩
  | finish e =>
    cases cur with
    | none => exact ⟨h1, h2⟩
    | some c =>
      cases run
      · exact ⟨h1, h2⟩
      · exact inv_finishCurrent ⟨qu, some c, true, fin, per, f, ev⟩
          (download_file c f e) ⟨h1, h2⟩
  | exitWorker =>
    cases cur with
    | some c => exact ⟨h1, h2⟩
    | none =>
      cases qu with
      | nil => cases run <;> exact ⟨h1, h2⟩
      | cons item rest => exact ⟨h1, h2⟩

theorem steps_inv (s : MState) (acts : List Action) (h : Inv s) :
    Inv (steps s acts) := by
  induction acts generalizing s with
  | nil => exact h
  | cons a as ih => exact ih (step s a) (inv_step s a h)

theorem activeCount_le_one (s : MState) (h : Inv s) : activeCount s ≤ 1 := by
  unfold activeCount
  have e1 : s.queue.filter (fun r => r.status = "downloading") = [] := by
    rw [List.filter_eq_nil_iff]
    intro a ha
    simpa using h.1 a ha
  have e2 : s.finished.filter (fun r => r.status = "downloading") = [] := by
    rw [List.filter_eq_nil_iff]
    intro a ha
    simpa using h.2 a ha
  rw [e1, e2]
  cases s.current with
  | none => simp
  | some c =>
    simp only [List.length_nil, Nat.zero_add]
    split <;> omega

theorem runLoop_cons_stop (s : MState) (e : Env) (es : List Env)
    (h2 : (runIter s e).2 = true) (hne : s.queue ≠ []) :
    runLoop s (e :: es) = (runIter s e).1 := by
  unfold runLoop
  cases hq : s.queue with
  | nil => exact absurd hq hne
  | cons a l =>
    simp only
    rw [h2]
    simp

/-! ## Claims -/

/-- **C1**: at every observed instant, for every sequence of
enqueue/pauseActive/resumeIfIdle/cancel calls interleaved with worker
execution, at most one `DownloadItem` has the active (`"downloading"`)
status: the worker pops and processes records strictly one at a time,
and a new worker is started only when none is currently running. -/
theorem single_flight_invariant (q : List DownloadItem) (fs : FS)
    (acts : List Action)
    (h : ∀ r ∈ q, r.status ≠ "downloading") :
    activeCount (steps (initState q fs) acts) ≤ 1 :=
  activeCount_le_one _
    (steps_inv _ acts ⟨h, fun r hr => absurd hr (List.not_mem_nil r)⟩)

theorem single_flight_invariant_witness :
    (∀ r ∈ ([] : List DownloadItem), r.status ≠ "downloading") ∧
    activeCount (steps (initState [] [])
      [Action.add ⟨"a", "vod", "t", "u", "f.mp4", "pending", 0, 0, 0, "", false, false⟩,
       Action.add ⟨"b", "vod", "t2", "u2", "g.mp4", "pending", 0, 0, 0, "", false, false⟩,
       Action.pop,
       Action.cancel "b",
       Action.finish ⟨200, none, some (some 300), [⟨50, false, false⟩], false, false, 0⟩,
       Action.exitWorker]) ≤ 1 :=
  ⟨fun r hr => absurd hr (List.not_mem_nil r),
   single_flight_invariant [] [] _ (fun r hr => absurd hr (List.not_mem_nil r))⟩

/-- **C10**: if `cancel_requested` becomes true only after the response
body has been fully read (no chunk-boundary check observes it), the
engine still checks the flag once after the loop and the transfer ends
as cancelled: the written destination file is deleted and
`downloaded`, `file_size` and `progress` are reset to zero, instead of
the transfer completing. -/
theorem late_cancel_still_cancels (item : DownloadItem) (fs : FS) (e : Env)
    (_hflags : ∀ c ∈ e.chunks, c.cancel = false ∧ c.pause = false)
    (hafter : e.cancel_after = true)
    (hok : e.status_code < 400) :
    (download_file item fs e).result = .ok .CANCELLED ∧
    lookupFS (download_file item fs e).fs item.output_path = none ∧
    (download_file item fs e).item.downloaded = 0 ∧
    (download_file item fs e).item.file_size = 0 ∧
    (download_file item fs e).item.progress = 0 := by
  unfold download_file
  rw [if_neg (by omega)]
  exact mainStage_cancelled item e _ hafter

theorem late_cancel_still_cancels_witness :
    (∀ c ∈ ([⟨50, false, false⟩] : List Chunk), c.cancel = false ∧ c.pause = false) ∧
    (download_file ⟨"a", "vod", "t", "u", "f.mp4", "pending", 0, 0, 0, "", false, false⟩
        [] ⟨200, none, some (some 300), [⟨50, false, false⟩], true, false, 0⟩).result
      = .ok .CANCELLED :=
  ⟨by decide,
   (late_cancel_still_cancels
      ⟨"a", "vod", "t", "u", "f.mp4", "pending", 0, 0, 0, "", false, false⟩
      [] ⟨200, none, some (some 300), [⟨50, false, false⟩], true, false, 0⟩
      (by decide) rfl (by decide)).1⟩

/-- **C6**: for every transfer that requested a byte range
(`start_from > 0`, i.e. a partial file of size `n ≠ 0` exists) but
received a full (non-206) response, the engine deletes the local partial
file, resets the offset and the byte counters to 0 (visible in the
`downloaded` trace), and writes the body from scratch in truncate mode,
so the finished file's byte count equals the number of body bytes
streamed, with no concatenation of old and new bytes. -/
theorem range_fallback_restart (item : DownloadItem) (fs : FS) (e : Env) (n : Nat)
    (hfs : lookupFS fs item.output_path = some n) (hn : n ≠ 0)
    (h206 : e.status_code ≠ 206) (hok : e.status_code < 400)
    (hflags : ∀ c ∈ e.chunks, c.cancel = false ∧ c.pause = false)
    (hafter : e.cancel_after = false)
    (hsub : item.subtitle_url = "") :
    (download_file item fs e).result = .ok .COMPLETED ∧
    lookupFS (download_file item fs e).fs item.output_path
      = some (e.chunks.map Chunk.size).sum ∧
    (download_file item fs e).item.downloaded
      = ((e.chunks.map Chunk.size).sum : Int) ∧
    (download_file item fs e).trace.take 3 = [item.downloaded, (n : Int), 0] := by
  unfold download_file
  rw [hfs]
  simp only [Option.getD_some]
  rw [if_neg (by omega), if_pos hn]
  have hpre := preludeStage_nonRange { item with downloaded := (n : Int) } fs n
    [item.downloaded, (n : Int)] e hn h206
  have hproj := preludeStage_proj { item with downloaded := (n : Int) } fs n
    [item.downloaded, (n : Int)] e
  have hmain := mainStage_completed item e
    (preludeStage { item with downloaded := (n : Int) } fs n
      [item.downloaded, (n : Int)] e) hflags hafter
  obtain ⟨hm1, hm2, hm3, hm4, hm5, hm6⟩ := hmain
  refine ⟨hm1, ?_, ?_, ?_⟩
  · rw [hm6]
    simp only
    rw [if_neg (by simp [hsub])]
    rw [hpre.1, lookupFS_setFS_same]
    simp
  · rw [hm3, hpre.2.2.1]
    simp
  · rw [hm4]
    obtain ⟨tl, htl⟩ := streamLoop_trace_extends
      (preludeStage { item with downloaded := (n : Int) } fs n
        [item.downloaded, (n : Int)] e).total e.chunks
      ⟨(preludeStage { item with downloaded := (n : Int) } fs n
          [item.downloaded, (n : Int)] e).item,
        (preludeStage { item with downloaded := (n : Int) } fs n
          [item.downloaded, (n : Int)] e).start1, false, false,
        (preludeStage { item with downloaded := (n : Int) } fs n
          [item.downloaded, (n : Int)] e).trace, []⟩
    simp only at htl
    rw [htl, hpre.2.2.2]
    rw [show [item.downloaded, (n : Int)] ++ [(0 : Int)] ++ tl
          = [item.downloaded, (n : Int), (0 : Int)] ++ tl by simp]
    exact List.take_left' rfl

theorem range_fallback_restart_witness :
    lookupFS [("f.mp4", 100)] "f.mp4" = some 100 ∧
    (download_file ⟨"a", "vod", "t", "u", "f.mp4", "pending", 0, 0, 0, "", false, false⟩
        [("f.mp4", 100)] ⟨200, none, some (some 300), [⟨50, false, false⟩], false, false, 0⟩).trace.take 3
      = [0, 100, 0] :=
  ⟨rfl,
   (range_fallback_restart
      ⟨"a", "vod", "t", "u", "f.mp4", "pending", 0, 0, 0, "", false, false⟩
      [("f.mp4", 100)] ⟨200, none, some (some 300), [⟨50, false, false⟩], false, false, 0⟩
      100 rfl (by decide) (by decide) (by decide) (by decide) rfl rfl).2.2.2⟩

/-- **C9** (amended): for every record with a non-empty `subtitle_url`
whose main transfer completes, the engine performs exactly one
best-effort fetch of that URL, targeted at `output_path` with every
`.mp4`/`.mkv` occurrence replaced by `.srt` — which is the sibling
`.srt` path for mp4/mkv media, but is `output_path` itself for any
other extension — and the completed outcome does not depend on whether
the fetch succeeds. -/
theorem subtitle_fetch_best_effort (item : DownloadItem) (fs : FS) (e : Env)
    (hsub : item.subtitle_url ≠ "")
    (hflags : ∀ c ∈ e.chunks, c.cancel = false ∧ c.pause = false)
    (hafter : e.cancel_after = false)
    (hok : e.status_code < 400) :
    (download_file item fs e).result = .ok .COMPLETED ∧
    (download_file item fs e).subs
      = [sreplace (sreplace item.output_path ".mp4" ".srt") ".mkv" ".srt"] := by
  unfold download_file
  rw [if_neg (by omega)]
  refine ⟨(mainStage_completed item e _ hflags hafter).1, ?_⟩
  rw [(mainStage_completed item e _ hflags hafter).2.2.2.2.1]
  rw [if_pos hsub]

theorem subtitle_fetch_best_effort_witness :
    (("su" : String) ≠ "") ∧
    (download_file ⟨"a", "vod", "t", "u", "film.mp4", "pending", 0, 0, 0, "su", false, false⟩
        [] ⟨200, none, some (some 300), [⟨50, false, false⟩], false, false, 0⟩).subs
      = ["film.srt"] :=
  ⟨by decide,
   by
    rw [(subtitle_fetch_best_effort
      ⟨"a", "vod", "t", "u", "film.mp4", "pending", 0, 0, 0, "su", false, false⟩
      [] ⟨200, none, some (some 300), [⟨50, false, false⟩], false, false, 0⟩
      (by decide) (by decide) rfl (by decide)).2]
    rfl⟩

/-- **C9** (counterexample): with `output_path = "film.avi"` the
completed transfer fetches the subtitles to `"film.avi"` itself — the
media file — not to a sibling path with the media's base name and a
subtitle extension (which would be `"film.srt"`). -/
theorem subtitle_sibling_counterexample :
    (download_file ⟨"a", "vod", "t", "u", "film.avi", "pending", 0, 0, 0, "su", false, false⟩
        [] ⟨200, none, some (some 300), [⟨50, false, false⟩], false, true, 7⟩).result
      = .ok .COMPLETED ∧
    (download_file ⟨"a", "vod", "t", "u", "film.avi", "pending", 0, 0, 0, "su", false, false⟩
        [] ⟨200, none, some (some 300), [⟨50, false, false⟩], false, true, 7⟩).subs
      = ["film.avi"] ∧
    ("film.avi" : String) ≠ "film.srt" :=
  ⟨rfl, rfl, by decide⟩

/-- **C3**: whenever the engine returns outcome `PAUSED`, the worker
sets the record's status to `"paused"`, re-inserts it at the head of
the queue with its partial byte count preserved, emits a progress
notification, persists the queue, and stops the worker loop without
processing any further queued record. -/
theorem pause_halts_queue (s : MState) (e : Env) (es : List Env)
    (item item1 : DownloadItem) (rest : List DownloadItem) (out : DFOut)
    (hq : s.queue = item :: rest)
    (hitem : item1 = { item with status := "downloading",
                                 pause_requested := false,
                                 cancel_requested := false })
    (hout : download_file item1 s.fs e = out)
    (hp : out.result = .ok .PAUSED) :
    (runIter s e).2 = true ∧
    (runIter s e).1.queue = { out.item with status := "paused" } :: rest ∧
    (runIter s e).1.persisted = { out.item with status := "paused" } :: rest ∧
    (runIter s e).1.running = false ∧
    (runIter s e).1.events
      = (s.events ++ [.progress item1]) ++ out.events
        ++ [.progress { out.item with status := "paused" }] ∧
    ({ out.item with status := "paused" }).downloaded = out.item.downloaded ∧
    runLoop s (e :: es) = (runIter s e).1 := by
  have key : runIter s e
      = ({ s with queue := { out.item with status := "paused" } :: rest,
                  current := none, running := false, fs := out.fs,
                  events := (s.events ++ [Event.progress item1]) ++ out.events
                    ++ [Event.progress { out.item with status := "paused" }],
                  persisted := { out.item with status := "paused" } :: rest }, true) := by
    obtain ⟨res, it, f, tr, ev, sb⟩ := out
    obtain rfl : res = .ok .PAUSED := hp
    simp only [runIter, hq]
    rw [← hitem, hout, finishCurrent_paused]
  refine ⟨by rw [key], by rw [key], by rw [key], by rw [key], by rw [key], rfl, ?_⟩
  exact runLoop_cons_stop s e es (by rw [key]) (by rw [hq]; simp)

theorem pause_halts_queue_witness :
    (download_file ⟨"a", "vod", "t", "u", "f.mp4", "downloading", 0, 0, 0, "", false, false⟩
        [] ⟨200, none, some (some 300), [⟨50, false, false⟩, ⟨0, false, true⟩], false, false, 0⟩).result
      = .ok .PAUSED ∧
    (runIter (initState [⟨"a", "vod", "t", "u", "f.mp4", "pending", 0, 0, 0, "", false, false⟩] [])
      ⟨200, none, some (some 300), [⟨50, false, false⟩, ⟨0, false, true⟩], false, false, 0⟩).2 = true :=
  ⟨rfl,
   (pause_halts_queue
      (initState [⟨"a", "vod", "t", "u", "f.mp4", "pending", 0, 0, 0, "", false, false⟩] [])
      ⟨200, none, some (some 300), [⟨50, false, false⟩, ⟨0, false, true⟩], false, false, 0⟩
      [] ⟨"a", "vod", "t", "u", "f.mp4", "pending", 0, 0, 0, "", false, false⟩ _ [] _
      rfl rfl rfl rfl).1⟩

/-- **C4** (counterexample): an engine outcome `COMPLETED` for a record
whose total was never learned (`file_size` stayed 0, the response had
neither `Content-Range` nor `Content-Length`): the worker marks the
record completed with `progress = 100` but leaves `downloaded = 5`,
which differs from `file_size = 0` — `transferredBytes` is *not* forced
to `totalBytes` in this case. -/
theorem completed_forcing_counterexample :
    ((runIter (initState
          [⟨"a", "vod", "t", "u", "f.mp4", "pending", 0, 0, 0, "", false, false⟩] [])
        ⟨200, none, none, [⟨5, false, false⟩], false, false, 0⟩).1.finished.map
      (fun r => (r.status, r.progress, r.downloaded, r.file_size)))
      = [("completed", (100 : Rat), (5 : Int), (0 : Int))] ∧
    (5 : Int) ≠ (0 : Int) :=
  ⟨rfl, by decide⟩

/-- **C4** (amended): on engine outcome `COMPLETED` the worker raises
`downloaded` to `file_size` only when `file_size ≠ 0` and
`downloaded < file_size`; otherwise (total never learned, or
`downloaded` already at or above the total) `downloaded` is left
unchanged.  In all cases it sets `progress = 100`,
`status = "completed"`, emits the completion notification, persists,
and continues the loop with the next record. -/
theorem completed_outcome (s : MState) (e : Env)
    (item item1 : DownloadItem) (rest : List DownloadItem) (out : DFOut)
    (hq : s.queue = item :: rest)
    (hitem : item1 = { item with status := "downloading",
                                 pause_requested := false,
                                 cancel_requested := false })
    (hout : download_file item1 s.fs e = out)
    (hc : out.result = .ok .COMPLETED) :
    (runIter s e).2 = false ∧
    (runIter s e).1.queue = rest ∧
    (runIter s e).1.persisted = rest ∧
    (runIter s e).1.finished
      = s.finished ++
        [{ (if out.item.file_size ≠ 0 ∧ out.item.downloaded < out.item.file_size
            then { out.item with downloaded := out.item.file_size }
            else out.item) with progress := 100, status := "completed" }] ∧
    (runIter s e).1.events
      = (s.events ++ [Event.progress item1]) ++ out.events ++
        [Event.completed
          { (if out.item.file_size ≠ 0 ∧ out.item.downloaded < out.item.file_size
             then { out.item with downloaded := out.item.file_size }
             else out.item) with progress := 100, status := "completed" }] := by
  have key : runIter s e
      = ({ s with queue := rest, current := none, fs := out.fs,
                  finished := s.finished ++
                    [{ (if out.item.file_size ≠ 0 ∧ out.item.downloaded < out.item.file_size
                        then { out.item with downloaded := out.item.file_size }
                        else out.item) with progress := 100, status := "completed" }],
                  events := (s.events ++ [Event.progress item1]) ++ out.events ++
                    [Event.completed
                      { (if out.item.file_size ≠ 0 ∧ out.item.downloaded < out.item.file_size
                         then { out.item with downloaded := out.item.file_size }
                         else out.item) with progress := 100, status := "completed" }],
                  persisted := rest }, false) := by
    obtain ⟨res, it, f, tr, ev, sb⟩ := out
    obtain rfl : res = .ok .COMPLETED := hc
    simp only [runIter, hq]
    rw [← hitem, hout, finishCurrent_completed]
  exact ⟨by rw [key], by rw [key], by rw [key], by rw [key], by rw [key]⟩

theorem completed_outcome_witness :
    (download_file ⟨"a", "vod", "t", "u", "f.mp4", "downloading", 0, 0, 0, "", false, false⟩
        [] ⟨200, none, none, [⟨5, false, false⟩], false, false, 0⟩).result
      = .ok .COMPLETED ∧
    (runIter (initState
        [⟨"a", "vod", "t", "u", "f.mp4", "pending", 0, 0, 0, "", false, false⟩] [])
      ⟨200, none, none, [⟨5, false, false⟩], false, false, 0⟩).2 = false :=
  ⟨rfl,
   (completed_outcome
      (initState [⟨"a", "vod", "t", "u", "f.mp4", "pending", 0, 0, 0, "", false, false⟩] [])
      ⟨200, none, none, [⟨5, false, false⟩], false, false, 0⟩
      ⟨"a", "vod", "t", "u", "f.mp4", "pending", 0, 0, 0, "", false, false⟩ _ [] _
      rfl rfl rfl rfl).1⟩

theorem mainStage_cancelled_of_result (item0 : DownloadItem) (e : Env) (p : PreSt)
    (h : (mainStage item0 e p).result = .ok .CANCELLED) :
    lookupFS (mainStage item0 e p).fs item0.output_path = none ∧
    (mainStage item0 e p).item.downloaded = 0 ∧
    (mainStage item0 e p).item.file_size = 0 ∧
    (mainStage item0 e p).item.progress = 0 := by
  simp only [mainStage] at h ⊢
  split at h
  · rename_i hcond
    rw [if_pos hcond]
    simp [lookupFS_removeFS_same]
  · rename_i hcond
    rw [if_neg hcond]
    split at h
    · simp at h
    · rename_i hcond2
      rw [if_neg hcond2]
      split at h <;> simp at h

theorem foldl_removeFS_nomatch (idv : String) (l : List DownloadItem) (acc : FS)
    (h : ∀ r ∈ l, r.id ≠ idv) :
    l.foldl (fun a it => if it.id = idv then removeFS a it.output_path else a) acc
      = acc := by
  induction l generalizing acc with
  | nil => rfl
  | cons hd tl ih =>
    have hhd : hd.id ≠ idv := h hd (by simp)
    simp only [List.foldl_cons, hhd, if_false]
    exact ih acc (fun r hr => h r (by simp [hr]))

/-- **C5**: `cancel_download` on the currently active record only sets
its `cancel_requested` flag — after which an engine run that ends
`CANCELLED` deletes the partial destination file and resets
`downloaded`, `file_size` and `progress` to zero; `cancel_download` on a
queued (non-active) id removes exactly the matching records from the
queue and the persisted document, deletes their partial output files,
and leaves every other record untouched; cancelling an id present
nowhere leaves the queue, the current download and the file system
unchanged. -/
theorem cancel_semantics (s : MState) (idv : String)
    (item0 : DownloadItem) (fs0 : FS) (e : Env) :
    (∀ c, s.current = some c → c.id = idv →
      cancel_download idv s
        = { s with current := some { c with cancel_requested := true } }) ∧
    ((download_file item0 fs0 e).result = .ok .CANCELLED →
      lookupFS (download_file item0 fs0 e).fs item0.output_path = none ∧
      (download_file item0 fs0 e).item.downloaded = 0 ∧
      (download_file item0 fs0 e).item.file_size = 0 ∧
      (download_file item0 fs0 e).item.progress = 0) ∧
    ((∀ c, s.current = some c → c.id ≠ idv) →
      (cancel_download idv s).queue = s.queue.filter (fun it => it.id ≠ idv) ∧
      (cancel_download idv s).persisted = s.queue.filter (fun it => it.id ≠ idv) ∧
      (cancel_download idv s).current = s.current ∧
      (cancel_download idv s).fs
        = s.queue.foldl
            (fun a it => if it.id = idv then removeFS a it.output_path else a)
            s.fs) ∧
    ((∀ c, s.current = some c → c.id ≠ idv) → (∀ r ∈ s.queue, r.id ≠ idv) →
      (cancel_download idv s).queue = s.queue ∧
      (cancel_download idv s).fs = s.fs ∧
      (cancel_download idv s).current = s.current) := by
  have hqueued : (∀ c, s.current = some c → c.id ≠ idv) →
      cancel_download idv s
        = { s with queue := s.queue.filter (fun it => it.id ≠ idv),
                   fs := s.queue.foldl
                     (fun a it => if it.id = idv then removeFS a it.output_path else a)
                     s.fs,
                   persisted := s.queue.filter (fun it => it.id ≠ idv) } := by
    intro h
    unfold cancel_download
    cases hcur : s.current with
    | none => simp
    | some c =>
      have : (decide (c.id = idv)) = false := by
        simp [h c hcur]
      simp [this]
  refine ⟨?_, ?_, ?_, ?_⟩
  · intro c hcur hid
    unfold cancel_download
    rw [hcur]
    simp [hid]
  · intro hres
    unfold download_file at hres ⊢
    split at hres
    · simp at hres
    · rename_i hst
      rw [if_neg hst]
      exact mainStage_cancelled_of_result item0 e _ hres
  · intro h
    rw [hqueued h]
    exact ⟨rfl, rfl, rfl, rfl⟩
  · intro h hnone
    rw [hqueued h]
    refine ⟨?_, ?_, rfl⟩
    · simp only
      rw [List.filter_eq_self]
      intro a ha
      simpa using hnone a ha
    · simp only
      rw [foldl_removeFS_nomatch idv s.queue s.fs hnone]

theorem cancel_semantics_witness :
    cancel_download "a"
      ⟨[], some ⟨"a", "vod", "t", "u", "f.mp4", "downloading", 0, 0, 0, "", false, false⟩,
        true, [], [], [("f.mp4", 3)], []⟩
      = ⟨[], some ⟨"a", "vod", "t", "u", "f.mp4", "downloading", 0, 0, 0, "", false, true⟩,
          true, [], [], [("f.mp4", 3)], []⟩ ∧
    (cancel_download "b"
      ⟨[⟨"b", "vod", "t", "u", "g.mp4", "pending", 0, 0, 0, "", false, false⟩,
        ⟨"c", "vod", "t", "u", "h.mp4", "pending", 0, 0, 0, "", false, false⟩],
        none, false, [], [], [("g.mp4", 7)], []⟩).queue
      = [⟨"c", "vod", "t", "u", "h.mp4", "pending", 0, 0, 0, "", false, false⟩] ∧
    (cancel_download "zz"
      ⟨[⟨"b", "vod", "t", "u", "g.mp4", "pending", 0, 0, 0, "", false, false⟩],
        none, false, [], [], [("g.mp4", 7)], []⟩).fs = [("g.mp4", 7)] ∧
    lookupFS (download_file
        ⟨"a", "vod", "t", "u", "f.mp4", "downloading", 0, 0, 0, "", false, false⟩
        [("f.mp4", 3)] ⟨206, none, none, [⟨5, true, false⟩], false, false, 0⟩).fs
      "f.mp4" = none := by
  refine ⟨?_, ?_, ?_, ?_⟩
  · exact (cancel_semantics
      ⟨[], some ⟨"a", "vod", "t", "u", "f.mp4", "downloading", 0, 0, 0, "", false, false⟩,
        true, [], [], [("f.mp4", 3)], []⟩ "a"
      ⟨"a", "vod", "t", "u", "f.mp4", "downloading", 0, 0, 0, "", false, false⟩
      [] ⟨200, none, none, [], false, false, 0⟩).1
      ⟨"a", "vod", "t", "u", "f.mp4", "downloading", 0, 0, 0, "", false, false⟩ rfl rfl
  · exact ((cancel_semantics
      ⟨[⟨"b", "vod", "t", "u", "g.mp4", "pending", 0, 0, 0, "", false, false⟩,
        ⟨"c", "vod", "t", "u", "h.mp4", "pending", 0, 0, 0, "", false, false⟩],
        none, false, [], [], [("g.mp4", 7)], []⟩ "b"
      ⟨"a", "vod", "t", "u", "f.mp4", "downloading", 0, 0, 0, "", false, false⟩
      [] ⟨200, none, none, [], false, false, 0⟩).2.2.1
      (fun c hc => by cases hc)).1
  · exact ((cancel_semantics
      ⟨[⟨"b", "vod", "t", "u", "g.mp4", "pending", 0, 0, 0, "", false, false⟩],
        none, false, [], [], [("g.mp4", 7)], []⟩ "zz"
      ⟨"a", "vod", "t", "u", "f.mp4", "downloading", 0, 0, 0, "", false, false⟩
      [] ⟨200, none, none, [], false, false, 0⟩).2.2.2
      (fun c hc => by cases hc) (by decide)).2.1
  · exact ((cancel_semantics
      ⟨[], none, false, [], [], [], []⟩ "a"
      ⟨"a", "vod", "t", "u", "f.mp4", "downloading", 0, 0, 0, "", false, false⟩
      [("f.mp4", 3)] ⟨206, none, none, [⟨5, true, false⟩], false, false, 0⟩).2.1
      rfl).1

/-- **C7** (counterexample): `add_download` performs no validation at
all — a record whose `id`, `url` and `output_path` are all empty is
still appended to the queue (with `status = "pending"` and cleared
flags), so enqueue does not "require id, sourceUrl and destinationPath
to be non-empty". -/
theorem enqueue_no_validation_counterexample :
    (add_download ⟨"", "vod", "t", "", "", "x", 0, 0, 0, "", true, true⟩
        (initState [] [])).queue
      = [⟨"", "vod", "t", "", "", "pending", 0, 0, 0, "", false, false⟩] ∧
    ("" : String).length = 0 :=
  ⟨rfl, rfl⟩

/-- **C7** (amended): `add_download` appends the record to the tail of
the queue with `status = "pending"` and both control flags cleared,
persists the queue, marks the worker running (starting it if it was
idle), and performs no validation whatsoever — empty `id`, `url` or
`output_path` are accepted. -/
theorem enqueue_appends_tail (item : DownloadItem) (s : MState) :
    (add_download item s).queue
      = s.queue ++ [{ item with status := "pending", pause_requested := false,
                                cancel_requested := false }] ∧
    (add_download item s).persisted = (add_download item s).queue ∧
    (add_download item s).running = true ∧
    (add_download item s).current = s.current ∧
    (add_download item s).finished = s.finished ∧
    (add_download item s).fs = s.fs :=
  ⟨rfl, rfl, rfl, rfl, rfl, rfl⟩

/-- **C8** (counterexample): a persisted queue document that is valid
JSON but whose items do not match the record schema (here an item
object missing all required fields) makes `load_download_queue` raise a
`TypeError` instead of falling back to the empty queue — so not every
corrupt document yields the empty queue. -/
theorem load_queue_corrupt_raises :
    load_download_queue (some (Json.obj [("items", Json.arr [Json.obj []])]))
      = .error "TypeError: missing required argument" ∧
    (Except.error "TypeError: missing required argument"
        : Except String (List DownloadItem)) ≠ .ok [] :=
  ⟨rfl, by decide⟩

/-- **C8** (amended): a missing or unparseable queue document (any
failure inside `load_json`, which catches all exceptions) falls back to
the `\x7b"items": []\x7d` default and so yields the empty queue; but a
document that parses as JSON and then fails record construction raises
past `load_json` to the caller. -/
theorem load_queue_fallback :
    load_download_queue none = .ok [] ∧
    load_json none (Json.obj [("items", Json.arr [])])
      = Json.obj [("items", Json.arr [])] :=
  ⟨rfl, rfl⟩

theorem preludeStage_chain (P : Int → Int → Prop) (hP0 : ∀ a, P a 0)
    (item1 : DownloadItem) (fs : FS) (start_from : Nat) (trace0 : List Int)
    (e : Env) (h : List.Chain' P trace0) :
    List.Chain' P (preludeStage item1 fs start_from trace0 e).trace := by
  simp only [preludeStage]
  split
  · show List.Chain' P (trace0 ++ [(0 : Int)])
    rw [List.chain'_append]
    refine ⟨h, by simp, fun x hx y hy => ?_⟩
    simp at hy
    subst hy
    exact hP0 x
  · exact h

theorem mainStage_trace_chain (P : Int → Int → Prop)
    (hP : ∀ (a : Int) (k : Nat), P a (a + (k : Int))) (hP0 : ∀ a, P a 0)
    (item0 : DownloadItem) (e : Env) (p : PreSt)
    (h1 : List.Chain' P p.trace)
    (h2 : p.trace.getLast? = some p.item.downloaded) :
    List.Chain' P (mainStage item0 e p).trace := by
  have hst := streamLoop_trace_chain P hP p.total e.chunks
    ⟨p.item, p.start1, false, false, p.trace, []⟩ h1 h2
  simp only [mainStage]
  split
  · show List.Chain' P
      ((streamLoop p.total e.chunks
        ⟨p.item, p.start1, false, false, p.trace, []⟩).trace ++ [(0 : Int)])
    rw [List.chain'_append]
    refine ⟨hst.1, by simp, fun x hx y hy => ?_⟩
    simp at hy
    subst hy
    exact hP0 x
  · split
    · exact hst.1
    · split
      · exact hst.1
      · exact hst.1

/-- **C2** (counterexample): a resumed transfer whose range request is
answered with a plain 200 (range not honored) decreases `downloaded`
from 100 to 0 mid-stream while the record is active, yet the run ends
`COMPLETED` — no cancellation cleanup is involved, so the reset during
cancellation cleanup is not the only decrease. -/
theorem downloaded_decrease_counterexample :
    (download_file ⟨"a", "vod", "t", "u", "f.mp4", "pending", 0, 0, 0, "", false, false⟩
        [("f.mp4", 100)]
        ⟨200, none, some (some 300), [⟨50, false, false⟩], false, false, 0⟩).result
      = .ok .COMPLETED ∧
    (download_file ⟨"a", "vod", "t", "u", "f.mp4", "pending", 0, 0, 0, "", false, false⟩
        [("f.mp4", 100)]
        ⟨200, none, some (some 300), [⟨50, false, false⟩], false, false, 0⟩).trace
      = [0, 100, 0, 50] ∧
    ¬ List.Chain' (fun a b : Int => a ≤ b) [0, 100, 0, 50] := by
  refine ⟨rfl, rfl, fun h => ?_⟩
  have := (List.chain'_cons.mp (List.chain'_cons.mp h).2).1
  omega

/-- **C2** (amended): while a record is active its `downloaded` value
never decreases from one update to the next except for resets to 0;
besides the reset during cancellation cleanup, a reset to 0 also occurs
during the range-not-honored restart and at stream start when no
partial file exists.  (The hypothesis states that the record's entry
counter does not exceed the partial file size, which holds for fresh
records and for paused records whose partial file is intact.) -/
theorem downloaded_monotone_except_resets (item : DownloadItem) (fs : FS) (e : Env)
    (hd : item.downloaded ≤ (((lookupFS fs item.output_path).getD 0 : Nat) : Int) ∨
          (lookupFS fs item.output_path).getD 0 = 0) :
    List.Chain' (fun a b => a ≤ b ∨ b = 0) (download_file item fs e).trace := by
  have hP : ∀ (a : Int) (k : Nat), a ≤ a + (k : Int) ∨ a + (k : Int) = 0 :=
    fun a k => Or.inl (by omega)
  have hP0 : ∀ a : Int, a ≤ (0 : Int) ∨ (0 : Int) = 0 := fun a => Or.inr rfl
  have hch : List.Chain' (fun a b => a ≤ b ∨ b = 0)
      [item.downloaded,
       (if (lookupFS fs item.output_path).getD 0 ≠ 0
        then { item with downloaded := (((lookupFS fs item.output_path).getD 0 : Nat) : Int) }
        else { item with downloaded := 0, progress := 0 }).downloaded] := by
    by_cases hsf : (lookupFS fs item.output_path).getD 0 ≠ 0
    · rw [if_pos hsf]
      refine List.chain'_pair.mpr ?_
      rcases hd with hd | hd
      · exact Or.inl hd
      · exact absurd hd hsf
    · rw [if_neg hsf]
      exact List.chain'_pair.mpr (Or.inr rfl)
  unfold download_file
  by_cases h400 : 400 ≤ e.status_code
  · rw [if_pos h400]
    exact hch
  · rw [if_neg h400]
    apply mainStage_trace_chain _ hP hP0
    · apply preludeStage_chain _ hP0
      exact hch
    · apply preludeStage_last
      rfl

theorem downloaded_monotone_except_resets_witness :
    ((0 : Int) ≤ (((lookupFS [("f.mp4", 100)] "f.mp4").getD 0 : Nat) : Int) ∨
      (lookupFS [("f.mp4", 100)] "f.mp4").getD 0 = 0) ∧
    List.Chain' (fun a b => a ≤ b ∨ b = 0)
      (download_file ⟨"a", "vod", "t", "u", "f.mp4", "pending", 0, 0, 0, "", false, false⟩
        [("f.mp4", 100)]
        ⟨200, none, some (some 300), [⟨50, false, false⟩], false, false, 0⟩).trace :=
  ⟨by decide,
   downloaded_monotone_except_resets
     ⟨"a", "vod", "t", "u", "f.mp4", "pending", 0, 0, 0, "", false, false⟩
     [("f.mp4", 100)]
     ⟨200, none, some (some 300), [⟨50, false, false⟩], false, false, 0⟩
     (by decide)⟩

end Addons
